import Mathlib

/-
  Shallow embedding of the bolt-language compiler (lexer.cpp / parser.cpp /
  codegen.cpp) and verification of its specification.

  The C++ source string is modelled as `List Char`, positions as `Nat`
  (`m_current_pos` is a non-negative int at every access), and line counters
  as `Nat`.  Character-consuming loops are written with an explicit fuel
  argument; every call site passes `s.length + 1`, which is always enough
  because each iteration consumes at least one character.
-/

namespace Bolt

/-- Token kinds, from `enum class TokenType` in lexer.hpp. -/
inductive TokenType where
  | INT
  | CHAR
  | RETURN
  | FOR
  | IDENTIFIER
  | NUMBER_LITERAL
  | STRING_LITERAL
  | SEMICOLON
  | OPEN_PAREN
  | CLOSE_PAREN
  | OPEN_BRACE
  | CLOSE_BRACE
  | OPEN_ANGLE
  | CLOSE_ANGLE
  | EQUALS
  | PLUS
  | MINUS
  | STAR
  | SLASH
  | INCLUDE
  | END_OF_FILE
deriving DecidableEq, Repr

/-- `struct Token` from lexer.hpp: a kind, the source text, and a line number. -/
structure Token where
  type : TokenType
  value : String
  line : Nat
deriving DecidableEq, Repr

/-- The `type_str` computed by the switch in `Token::to_string()` (lexer.cpp). -/
def TokenType.type_str : TokenType → String
  | .INT => "INT"
  | .CHAR => "CHAR"
  | .RETURN => "RETURN"
  | .FOR => "FOR"
  | .IDENTIFIER => "IDENTIFIER"
  | .NUMBER_LITERAL => "NUMBER_LITERAL"
  | .STRING_LITERAL => "STRING_LITERAL"
  | .SEMICOLON => "SEMICOLON"
  | .OPEN_PAREN => "OPEN_PAREN"
  | .CLOSE_PAREN => "CLOSE_PAREN"
  | .OPEN_BRACE => "OPEN_BRACE"
  | .CLOSE_BRACE => "CLOSE_BRACE"
  | .OPEN_ANGLE => "OPEN_ANGLE"
  | .CLOSE_ANGLE => "CLOSE_ANGLE"
  | .EQUALS => "EQUALS"
  | .PLUS => "PLUS"
  | .MINUS => "MINUS"
  | .STAR => "STAR"
  | .SLASH => "SLASH"
  | .INCLUDE => "INCLUDE"
  | .END_OF_FILE => "END_OF_FILE"

/-- `Token::to_string()` from lexer.cpp. -/
def Token.to_string (t : Token) : String :=
  "Token [Type: " ++ t.type.type_str ++ ", Value: '" ++ t.value ++ "', Line: "
    ++ toString t.line ++ "]"

/-- The `keywords` map from lexer.cpp (exact, case-sensitive lookup). -/
def keywords (v : String) : Option TokenType :=
  if v = "int" then some .INT
  else if v = "char" then some .CHAR
  else if v = "return" then some .RETURN
  else if v = "for" then some .FOR
  else none

/-- `Lexer::peek()`: the character at `pos`, or `'\0'` past the end. -/
def peekAt (s : List Char) (pos : Nat) : Char := s.getD pos '\x00'

/-- The identifier-continuation test `std::isalnum(c) || c == '_'`
    used in `Lexer::handle_identifier`. -/
def isIdentChar (c : Char) : Bool := c.isAlphanum || c = '_'

/-- The scanning loop of `Lexer::handle_identifier`: advance while the next
    character is alphanumeric or an underscore; returns the end position. -/
def scanIdent (s : List Char) : Nat → Nat → Nat
  | 0, pos => pos
  | fuel + 1, pos =>
    if isIdentChar (peekAt s pos) then scanIdent s fuel (pos + 1) else pos

/-- The scanning loop of `Lexer::handle_number`: advance while the next
    character is a digit; returns the end position. -/
def scanNumber (s : List Char) : Nat → Nat → Nat
  | 0, pos => pos
  | fuel + 1, pos =>
    if (peekAt s pos).isDigit then scanNumber s fuel (pos + 1) else pos

/-- The scanning loop of `Lexer::handle_string`: advance until a closing quote
    or end of input, bumping the line counter at each newline; returns the end
    position and the updated line counter. -/
def scanString (s : List Char) : Nat → Nat → Nat → Nat × Nat
  | 0, pos, line => (pos, line)
  | fuel + 1, pos, line =>
    if s.length ≤ pos then (pos, line)
    else if peekAt s pos = '"' then (pos, line)
    else scanString s fuel (pos + 1) (if peekAt s pos = '\n' then line + 1 else line)

/-- The comment-consuming inner loop of `Lexer::skip_whitespace_and_comments`:
    advance until a newline or end of input (the newline is not consumed). -/
def skipComment (s : List Char) : Nat → Nat → Nat
  | 0, pos => pos
  | fuel + 1, pos =>
    if s.length ≤ pos then pos
    else if peekAt s pos = '\n' then pos
    else skipComment s fuel (pos + 1)

/-- `Lexer::skip_whitespace_and_comments` from lexer.cpp: skips spaces, `'\r'`,
    `'\t'`, newlines (counting them in the line counter) and `//` comments. -/
def skip_whitespace_and_comments (s : List Char) : Nat → Nat → Nat → Nat × Nat
  | 0, pos, line => (pos, line)
  | fuel + 1, pos, line =>
    if s.length ≤ pos then (pos, line)
    else
      let c := peekAt s pos
      if c = ' ' || c = '\r' || c = '\t' then
        skip_whitespace_and_comments s fuel (pos + 1) line
      else if c = '\n' then
        skip_whitespace_and_comments s fuel (pos + 1) (line + 1)
      else if c = '/' then
        if pos + 1 < s.length ∧ peekAt s (pos + 1) = '/' then
          skip_whitespace_and_comments s fuel (skipComment s (s.length + 1) pos) line
        else (pos, line)
      else (pos, line)

/-- `Lexer::make_token`. -/
def make_token (ty : TokenType) (v : String) (line : Nat) : Token := ⟨ty, v, line⟩

/-- `m_source.substr(a, b - a)`. -/
def slice (s : List Char) (a b : Nat) : String := String.mk ((s.drop a).take (b - a))

/-- The single-character cases of the switch in `Lexer::tokenize`
    (there is no case for `'/'`: a lone slash falls through to the default). -/
def singleCharType (c : Char) : Option TokenType :=
  if c = ';' then some .SEMICOLON
  else if c = '(' then some .OPEN_PAREN
  else if c = ')' then some .CLOSE_PAREN
  else if c = '\x7b' then some .OPEN_BRACE
  else if c = '\x7d' then some .CLOSE_BRACE
  else if c = '<' then some .OPEN_ANGLE
  else if c = '>' then some .CLOSE_ANGLE
  else if c = '=' then some .EQUALS
  else if c = '+' then some .PLUS
  else if c = '-' then some .MINUS
  else if c = '*' then some .STAR
  else none

/-- `Lexer::handle_identifier` (lexer.cpp): consume the maximal run of
    alphanumeric/underscore characters starting at `pos`, then look the whole
    run up in `keywords`; returns the token and the new position. -/
def handle_identifier (s : List Char) (pos line : Nat) : Token × Nat :=
  let e := scanIdent s (s.length + 1) pos
  let v := slice s pos e
  (make_token ((keywords v).getD .IDENTIFIER) v line, e)

/-- `Lexer::handle_number` (lexer.cpp): consume the maximal digit run. -/
def handle_number (s : List Char) (pos line : Nat) : Token × Nat :=
  let e := scanNumber s (s.length + 1) pos
  (make_token .NUMBER_LITERAL (slice s pos e) line, e)

/-- `Lexer::handle_string` (lexer.cpp), entered just past the opening quote:
    scan to the closing quote; at end of input report the unterminated string
    and return the sentinel `END_OF_FILE`/"ERROR" token, otherwise return the
    `STRING_LITERAL` token and consume the closing quote.  Returns the token,
    the new position and the new line counter. -/
def handle_string (s : List Char) (pos line : Nat) : Token × Nat × Nat :=
  let sc := scanString s (s.length + 1) pos line
  if s.length ≤ sc.1 then (make_token .END_OF_FILE "ERROR" sc.2, sc.1, sc.2)
  else (make_token .STRING_LITERAL (slice s pos sc.1) sc.2, sc.1 + 1, sc.2)

/-- Result of the main lexing loop: the tokens emitted so far, each paired with
    the source position of its first character, plus the final position and
    line counter. -/
structure LexOut where
  toks : List (Token × Nat)
  pos : Nat
  line : Nat
deriving DecidableEq, Repr

/-- Prepend one emitted token (with its start position) to a loop result. -/
def consTok (t : Token) (start : Nat) (r : LexOut) : LexOut :=
  ⟨(t, start) :: r.toks, r.pos, r.line⟩

/-- The `while (!is_at_end())` loop of `Lexer::tokenize` (lexer.cpp).
    Each iteration skips whitespace and comments, consumes one character `c`,
    and dispatches exactly as the C++ switch does:
    * single-character tokens;
    * `'#'`: if the next character is `'i'`, skip six characters and emit one
      `#include` token, otherwise drop the `'#'` silently;
    * `'"'`: scan a string literal; at end of input emit the sentinel
      `END_OF_FILE`/"ERROR" token, otherwise a `STRING_LITERAL` token
      (the closing quote is consumed);
    * default: digits start a number, letters and `'_'` start an identifier
      (whose full text is then looked up in `keywords`), and any other
      character is reported to stderr and dropped. -/
def lexLoop (s : List Char) : Nat → Nat → Nat → LexOut
  | 0, pos, line => ⟨[], pos, line⟩
  | fuel + 1, pos, line =>
    if s.length ≤ pos then ⟨[], pos, line⟩
    else
      let ws := skip_whitespace_and_comments s (s.length + 1) pos line
      let pos1 := ws.1
      let line1 := ws.2
      if s.length ≤ pos1 then ⟨[], pos1, line1⟩
      else
        let c := peekAt s pos1
        let pos2 := pos1 + 1
        match singleCharType c with
        | some ty =>
            consTok (make_token ty (String.mk [c]) line1) pos1 (lexLoop s fuel pos2 line1)
        | none =>
          if c = '#' then
            if peekAt s pos2 = 'i' then
              consTok (make_token .INCLUDE "#include" line1) pos1
                (lexLoop s fuel (pos2 + 6) line1)
            else lexLoop s fuel pos2 line1
          else if c = '"' then
            let r := handle_string s pos2 line1
            consTok r.1 pos1 (lexLoop s fuel r.2.1 r.2.2)
          else if c.isDigit then
            let r := handle_number s pos1 line1
            consTok r.1 pos1 (lexLoop s fuel r.2 line1)
          else if c.isAlpha || c = '_' then
            let r := handle_identifier s pos1 line1
            consTok r.1 pos1 (lexLoop s fuel r.2 line1)
          else lexLoop s fuel pos2 line1

/-- `Lexer::tokenize`, instrumented with each token's start position:
    run the main loop, then append the final `END_OF_FILE` token. -/
def tokenizeI (s : List Char) : List (Token × Nat) :=
  let r := lexLoop s (s.length + 1) 0 1
  r.toks ++ [(make_token .END_OF_FILE "" r.line, r.pos)]

/-- `Lexer::tokenize` from lexer.cpp. -/
def tokenize (s : List Char) : List Token := (tokenizeI s).map Prod.fst

/-- Number of newline characters in a character list. -/
def countNL (l : List Char) : Nat := l.count '\n'

/- ------------------------------------------------------------------
   AST (parser.hpp).  A C++ `std::unique_ptr` field may be null, so every
   child pointer is modelled as an `Option`; the node lists are lists of
   `Option Stmt` (a `push_back` of a null pointer stores a `none`).
   ------------------------------------------------------------------ -/

/-- `ExprNode` hierarchy from parser.hpp (only `NumberLiteralNode` exists). -/
inductive Expr where
  | numberLiteral (value : String)
deriving DecidableEq, Repr

/-- `StmtNode` hierarchy from parser.hpp: `BlockStmtNode`, `ReturnStmtNode`
    and `FunctionDefNode` (whose body pointer always refers to a block). -/
inductive Stmt where
  | block (statements : List (Option Stmt))
  | ret (expression : Option Expr)
  | funcDef (return_type : String) (name : String) (body : Option Stmt)

/-- `ProgramNode` from parser.hpp. -/
structure Program where
  statements : List (Option Stmt)

/- ------------------------------------------------------------------
   Parser (parser.cpp).  `m_tokens` is the fixed token list, `m_current_pos`
   a `Nat`.  A parsing function returns:
   * `ok v pos ws` — success, with the new position and the warnings it
     printed to stderr, in order;
   * `err msg ws`  — a thrown `std::runtime_error` carrying `msg` (after
     printing the warnings `ws`), caught in `Parser::parse`;
   * `oob`         — an out-of-bounds `std::vector` access (undefined
     behaviour in the C++); it is propagated and makes `parse` return `none`.
   ------------------------------------------------------------------ -/

/-- Outcome of one C++ parsing function (see above). -/
inductive PRes (α : Type) where
  | ok (val : α) (pos : Nat) (warns : List String)
  | err (msg : String) (warns : List String)
  | oob
deriving DecidableEq, Repr

/-- `Parser::check`: false at end of stream, otherwise compares the kind of
    the current token.  `none` models an out-of-bounds `peek`. -/
def check (toks : List Token) (pos : Nat) (ty : TokenType) : Option Bool :=
  match toks[pos]? with
  | none => none
  | some t => some (decide (¬ t.type = .END_OF_FILE ∧ t.type = ty))

/-- `Parser::advance`: step past the current token unless it is
    `END_OF_FILE`, then return `m_tokens[m_current_pos - 1]`.
    `none` models an out-of-bounds access (including the index `-1` read
    that happens when `advance` is called at position 0 on `END_OF_FILE`). -/
def advanceTok (toks : List Token) (pos : Nat) : Option (Token × Nat) :=
  match toks[pos]? with
  | none => none
  | some t =>
    if t.type = .END_OF_FILE then
      if pos = 0 then none
      else (toks[pos - 1]?).map (fun u => (u, pos))
    else some (t, pos + 1)

/-- `Parser::expect`: advance over a token of the given kind or throw
    the given error message. -/
def expect (toks : List Token) (pos : Nat) (ty : TokenType) (msg : String) :
    PRes Token :=
  match check toks pos ty with
  | none => .oob
  | some true =>
    match advanceTok toks pos with
    | none => .oob
    | some (t, pos') => .ok t pos' []
  | some false => .err msg []

/-- `Parser::parse_expression`: a number literal or a syntax error. -/
def parse_expression (toks : List Token) (pos : Nat) : PRes Expr :=
  match check toks pos .NUMBER_LITERAL with
  | none => .oob
  | some true =>
    match advanceTok toks pos with
    | none => .oob
    | some (num, pos') => .ok (.numberLiteral num.value) pos' []
  | some false => .err "Expected an expression (e.g., a number)." []

/-- `Parser::parse_return_statement`: consume `return`, parse the expression,
    then expect a semicolon. -/
def parse_return_statement (toks : List Token) (pos : Nat) : PRes Stmt :=
  match advanceTok toks pos with
  | none => .oob
  | some (_, pos1) =>
    match parse_expression toks pos1 with
    | .oob => .oob
    | .err m w => .err m w
    | .ok e pos2 w2 =>
      match expect toks pos2 .SEMICOLON "Expected ';' after return value." with
      | .oob => .oob
      | .err m w3 => .err m (w2 ++ w3)
      | .ok _ pos3 w3 => .ok (.ret (some e)) pos3 (w2 ++ w3)

/-- `Parser::parse_statement`: a `return` statement, or skip one token with a
    warning and yield a null statement. -/
def parse_statement (toks : List Token) (pos : Nat) : PRes (Option Stmt) :=
  match check toks pos .RETURN with
  | none => .oob
  | some true =>
    match parse_return_statement toks pos with
    | .ok s p w => .ok (some s) p w
    | .err m w => .err m w
    | .oob => .oob
  | some false =>
    match advanceTok toks pos with
    | none => .oob
    | some (t, pos') =>
      .ok none pos' ["Parser Warning: Skipping unknown token in block: " ++ t.to_string]

/-- The `while (!check(CLOSE_BRACE) && !is_at_end())` loop of
    `Parser::parse_block_statement`; only non-null statements are pushed. -/
def blockLoop (toks : List Token) : Nat → Nat → PRes (List (Option Stmt))
  | 0, _ => .oob
  | fuel + 1, pos =>
    match toks[pos]? with
    | none => .oob
    | some t =>
      if t.type = .CLOSE_BRACE ∨ t.type = .END_OF_FILE then .ok [] pos []
      else
        match parse_statement toks pos with
        | .oob => .oob
        | .err m w => .err m w
        | .ok o pos' w =>
          match blockLoop toks fuel pos' with
          | .oob => .oob
          | .err m w2 => .err m (w ++ w2)
          | .ok l pos'' w2 =>
            .ok ((match o with | some s => [some s] | none => []) ++ l) pos'' (w ++ w2)

/-- `Parser::parse_block_statement`: `{`, statements, `}`. -/
def parse_block_statement (toks : List Token) (pos : Nat) : PRes Stmt :=
  match expect toks pos .OPEN_BRACE "Expected '\x7b' to begin a block." with
  | .oob => .oob
  | .err m w => .err m w
  | .ok _ pos1 w1 =>
    match blockLoop toks (toks.length + 1) pos1 with
    | .oob => .oob
    | .err m w => .err m (w1 ++ w)
    | .ok l pos2 w2 =>
      match expect toks pos2 .CLOSE_BRACE "Expected '\x7d' to end a block." with
      | .oob => .oob
      | .err m w3 => .err m (w1 ++ w2 ++ w3)
      | .ok _ pos3 w3 => .ok (.block l) pos3 (w1 ++ w2 ++ w3)

/-- `Parser::parse_function_definition`: type, name, `(`, `)`, body. -/
def parse_function_definition (toks : List Token) (pos : Nat) : PRes Stmt :=
  match advanceTok toks pos with
  | none => .oob
  | some (ty, pos1) =>
    match expect toks pos1 .IDENTIFIER "Expected function name." with
    | .oob => .oob
    | .err m w => .err m w
    | .ok nm pos2 w2 =>
      match expect toks pos2 .OPEN_PAREN "Expected '(' after function name." with
      | .oob => .oob
      | .err m w => .err m (w2 ++ w)
      | .ok _ pos3 w3 =>
        match expect toks pos3 .CLOSE_PAREN "Expected ')' after parameters." with
        | .oob => .oob
        | .err m w => .err m (w2 ++ w3 ++ w)
        | .ok _ pos4 w4 =>
          match parse_block_statement toks pos4 with
          | .oob => .oob
          | .err m w => .err m (w2 ++ w3 ++ w4 ++ w)
          | .ok body pos5 w5 =>
            .ok (.funcDef ty.value nm.value (some body)) pos5 (w2 ++ w3 ++ w4 ++ w5)

/-- `Parser::parse_declaration`: `int IDENTIFIER` starts a function
    definition (note the raw one-token lookahead `m_tokens[m_current_pos + 1]`,
    reached only when `check(INT)` holds); anything else is skipped with a
    warning, yielding a null declaration. -/
def parse_declaration (toks : List Token) (pos : Nat) : PRes (Option Stmt) :=
  match check toks pos .INT with
  | none => .oob
  | some true =>
    match toks[pos + 1]? with
    | none => .oob
    | some u =>
      if u.type = .IDENTIFIER then
        match parse_function_definition toks pos with
        | .oob => .oob
        | .err m w => .err m w
        | .ok s p w => .ok (some s) p w
      else
        match advanceTok toks pos with
        | none => .oob
        | some (t, pos') =>
          .ok none pos'
            ["Parser Warning: Skipping unknown top-level token: " ++ t.to_string]
  | some false =>
    match advanceTok toks pos with
    | none => .oob
    | some (t, pos') =>
      .ok none pos'
        ["Parser Warning: Skipping unknown top-level token: " ++ t.to_string]

/-- The `while (!is_at_end())` loop of `Parser::parse`: push each declaration
    (null ones included); a thrown parse error is printed and breaks the loop.
    Returns the statement list and the diagnostics, or `none` after an
    out-of-bounds access. -/
def parseLoop (toks : List Token) : Nat → Nat → Option (List (Option Stmt) × List String)
  | 0, _ => none
  | fuel + 1, pos =>
    match toks[pos]? with
    | none => none
    | some t =>
      if t.type = .END_OF_FILE then some ([], [])
      else
        match parse_declaration toks pos with
        | .oob => none
        | .err m w => some ([], w ++ ["Parse Error: " ++ m])
        | .ok o pos' w =>
          match parseLoop toks fuel pos' with
          | none => none
          | some (l, ds) => some (o :: l, w ++ ds)

/-- `Parser::parse` restarted at position `pos` of the token list. -/
def parseFrom (toks : List Token) (pos : Nat) : Option (Program × List String) :=
  (parseLoop toks (toks.length + 1 - pos) pos).map (fun r => (⟨r.1⟩, r.2))

/-- `Parser::parse` from parser.cpp. -/
def parse (toks : List Token) : Option (Program × List String) := parseFrom toks 0

/- ------------------------------------------------------------------
   Code generator (codegen.cpp).  The visitors only append text to
   `m_output`, so each is modelled as the string it appends; `generate`
   appends to the stream it is given and returns `m_output.str()` together
   with the new stream contents.
   ------------------------------------------------------------------ -/

/-- `CodeGenerator::visit(ExprNode*)`: a number literal moves its value into
    `rax`; a null or unknown expression only prints a warning. -/
def visitExpr : Option Expr → String
  | none => ""
  | some (.numberLiteral v) => "  mov rax, " ++ v ++ "\n"

mutual
/-- `CodeGenerator::visit(StmtNode*)`: skip null pointers, then dispatch by
    dynamic type exactly as the chain of `dynamic_cast`s does. -/
def visitStmtOpt : Option Stmt → String
  | none => ""
  | some s => visitStmt s

/-- The three statement visitors of codegen.cpp: function label plus prologue
    then the body; block children in order; return emits the expression, the
    two epilogue instructions, and `ret`. -/
def visitStmt : Stmt → String
  | .funcDef _ name body =>
      name ++ ":\n" ++ "  push rbp\n" ++ "  mov rbp, rsp\n" ++ visitStmtOpt body
  | .ret e => visitExpr e ++ "  mov rsp, rbp\n" ++ "  pop rbp\n" ++ "  ret\n"
  | .block l => visitStmts l

/-- The loop of `CodeGenerator::visit(BlockStmtNode*)` (also the shape of the
    top-level loop in `generate`). -/
def visitStmts : List (Option Stmt) → String
  | [] => ""
  | o :: rest => visitStmtOpt o ++ visitStmts rest
end

/-- `CodeGenerator::generate`: append the preamble and the code of every
    top-level statement to `m_output`, and return `m_output.str()` paired with
    the new stream contents (the stream is never cleared). -/
def generate (p : Program) (m_output : String) : String × String :=
  let out := m_output ++ "global main\n" ++ "section .text\n" ++ visitStmts p.statements
  (out, out)

/- ------------------------------------------------------------------
   Predicates used to state the claims.
   ------------------------------------------------------------------ -/

mutual
/-- Every `ret` node in the statement tree has a present expression. -/
def returnsOkStmt : Stmt → Bool
  | .block l => returnsOkList l
  | .ret e => e.isSome
  | .funcDef _ _ none => true
  | .funcDef _ _ (some b) => returnsOkStmt b

/-- `returnsOkStmt` over a list of possibly-null statements. -/
def returnsOkList : List (Option Stmt) → Bool
  | [] => true
  | none :: r => returnsOkList r
  | some s :: r => returnsOkStmt s && returnsOkList r
end

mutual
/-- No `block` node anywhere in the statement tree has a null entry. -/
def blocksCleanStmt : Stmt → Bool
  | .block l => blocksCleanEntries l
  | .ret _ => true
  | .funcDef _ _ none => true
  | .funcDef _ _ (some b) => blocksCleanStmt b

/-- Entries of a block: every entry present, and clean recursively. -/
def blocksCleanEntries : List (Option Stmt) → Bool
  | [] => true
  | none :: _ => false
  | some s :: r => blocksCleanStmt s && blocksCleanEntries r
end

/-- The line-number claim as stated: every token reports `N + 1` where `N` is
    the number of newline characters occurring before the token's occurrence
    (its start position). -/
def lineNumberClaim (s : List Char) : Prop :=
  ∀ tp ∈ tokenizeI s, (tp : Token × Nat).1.line = 1 + countNL (s.take tp.2)

/-- The token sequence ends with an end-of-stream token (what `tokenize`
    guarantees about its result). -/
def EndsWithEOF (toks : List Token) : Prop :=
  ∃ tl, toks.getLast? = some tl ∧ tl.type = .END_OF_FILE

/- ==================================================================
   Theorems.
   ================================================================== -/

/-- C1: lexing, parsing and generating code for the source text
    `int main() { return 0; }` produces exactly the preamble (entry-symbol
    line, code-section line), the label `main:`, the two prologue lines, the
    expression's `mov rax, 0`, the two epilogue lines and `ret`, in this
    order; in particular the move instruction precedes the epilogue. -/
theorem c1_return_zero_end_to_end :
    (parse (tokenize "int main() \x7b return 0; \x7d".data)).map
        (fun r => (generate r.1 "").1)
      = some ("global main\n" ++ "section .text\n" ++ "main:\n" ++ "  push rbp\n"
          ++ "  mov rbp, rsp\n" ++ "  mov rax, 0\n" ++ "  mov rsp, rbp\n"
          ++ "  pop rbp\n" ++ "  ret\n") := rfl

/-- C2 counterexample: calling `generate` twice on the same generator (the
    member stream `m_output` is never cleared) does not return byte-identical
    text: already for the empty program the second result differs from the
    first. -/
theorem c2_generate_twice_differs :
    (generate ⟨[]⟩ (generate ⟨[]⟩ "").2).1 ≠ (generate ⟨[]⟩ "").1 := by decide

/-- C2 amended: `generate` appends to `m_output` instead of rebuilding it, so
    for every AST the second invocation returns the first result concatenated
    with itself (hence it is never equal to the non-empty first result). -/
theorem c2_generate_second_call_appends (p : Program) :
    (generate p (generate p "").2).1 = (generate p "").1 ++ (generate p "").1 := by
  simp only [generate]
  simp [String.append_assoc]

/-- C2 amended, witness at the empty program. -/
theorem c2_generate_second_call_appends_witness :
    (generate ⟨[]⟩ (generate ⟨[]⟩ "").2).1 = (generate ⟨[]⟩ "").1 ++ (generate ⟨[]⟩ "").1 :=
  c2_generate_second_call_appends ⟨[]⟩

/-- C3 counterexample: on the input consisting of a single double quote (an
    unterminated string literal) the end-of-stream kind occurs twice in the
    token sequence, not exactly once: the sentinel `END_OF_FILE`/"ERROR" token
    is pushed and the final `END_OF_FILE` token is still appended. -/
theorem c3_unterminated_string_two_eof :
    (tokenize "\"".data).countP (fun t => t.type == .END_OF_FILE) ≠ 1 := by decide

/-- C5: the claim is right and the code is wrong (`m_current_pos += 6`
    contradicts the adjacent comment "Skip include": `include` has seven
    characters).  On the eight-character input `#include` the lexer emits the
    `#include` token, then an extra `IDENTIFIER` token for the leftover `e`,
    then the end-of-stream token — not the claimed two-token sequence. -/
theorem c5_include_skip_leaves_identifier :
    tokenize "#include".data
      = [⟨.INCLUDE, "#include", 1⟩, ⟨.IDENTIFIER, "e", 1⟩, ⟨.END_OF_FILE, "", 1⟩] := rfl

/-- C4 counterexample: for the token sequence `;` `EOF` the offending token
    does contribute an entry to the program's statements list — a null entry
    is pushed, so the list has length 1, not 0. -/
theorem c4_skipped_token_adds_null_entry :
    (parse [⟨.SEMICOLON, ";", 1⟩, ⟨.END_OF_FILE, "", 1⟩]).map (fun r => r.1.statements)
        = some [none]
      ∧ (parse [⟨.SEMICOLON, ";", 1⟩, ⟨.END_OF_FILE, "", 1⟩]).map
          (fun r => r.1.statements.length) ≠ some 0 :=
  ⟨rfl, by decide⟩

set_option maxHeartbeats 1000000 in
/-- Helper: no single-character token has the end-of-stream kind. -/
lemma singleCharType_ne_eof {c : Char} {ty : TokenType} (h : singleCharType c = some ty) :
    ty ≠ .END_OF_FILE := by
  simp only [singleCharType] at h
  repeat' split at h
  all_goals first
    | exact Option.noConfusion h
    | (injection h with h2; subst h2; decide)

/-- Helper: keyword lookup yields a keyword kind or `IDENTIFIER`, never
    the end-of-stream kind. -/
lemma keywords_getD_ne_eof (v : String) : (keywords v).getD .IDENTIFIER ≠ .END_OF_FILE := by
  unfold keywords
  split_ifs <;> simp

/-- Helper: `handle_identifier` never emits an end-of-stream token. -/
lemma handle_identifier_type_ne_eof (s : List Char) (pos line : Nat) :
    (handle_identifier s pos line).1.type ≠ .END_OF_FILE := by
  simp only [handle_identifier, make_token]
  exact keywords_getD_ne_eof _

/-- Helper: `handle_number` emits a number-literal token. -/
lemma handle_number_type (s : List Char) (pos line : Nat) :
    (handle_number s pos line).1.type = .NUMBER_LITERAL := rfl

/-- Helper: when `handle_string` emits an end-of-stream token it is the
    sentinel with value "ERROR". -/
lemma handle_string_eof_val (s : List Char) (pos line : Nat) :
    (handle_string s pos line).1.type = .END_OF_FILE →
      (handle_string s pos line).1.value = "ERROR" := by
  simp only [handle_string]
  split <;> simp [make_token]

/-- Helper: every end-of-stream token emitted by the main lexer loop is the
    sentinel with value "ERROR". -/
lemma lexLoop_eof_val (s : List Char) :
    ∀ fuel pos line, ∀ tp ∈ (lexLoop s fuel pos line).toks,
      tp.1.type = .END_OF_FILE → tp.1.value = "ERROR" := by
  intro fuel
  induction fuel with
  | zero => intro pos line tp hmem; simp [lexLoop] at hmem
  | succ n ih =>
    intro pos line tp hmem htype
    simp only [lexLoop] at hmem
    split at hmem
    · simp at hmem
    · split at hmem
      · simp at hmem
      · split at hmem
        case h_1 ty heq =>
          simp only [consTok, List.mem_cons] at hmem
          rcases hmem with rfl | hmem
          · exact absurd htype (singleCharType_ne_eof heq)
          · exact ih _ _ tp hmem htype
        case h_2 heq =>
          split at hmem
          · split at hmem
            · simp only [consTok, List.mem_cons] at hmem
              rcases hmem with rfl | hmem
              · simp [make_token] at htype
              · exact ih _ _ tp hmem htype
            · exact ih _ _ tp hmem htype
          · split at hmem
            · simp only [consTok, List.mem_cons] at hmem
              rcases hmem with rfl | hmem
              · exact handle_string_eof_val s _ _ htype
              · exact ih _ _ tp hmem htype
            · split at hmem
              · simp only [consTok, List.mem_cons] at hmem
                rcases hmem with rfl | hmem
                · rw [handle_number_type] at htype; cases htype
                · exact ih _ _ tp hmem htype
              · split at hmem
                · simp only [consTok, List.mem_cons] at hmem
                  rcases hmem with rfl | hmem
                  · exact absurd htype (handle_identifier_type_ne_eof s _ _)
                  · exact ih _ _ tp hmem htype
                · exact ih _ _ tp hmem htype

/-- Helper: `tokenize` is the loop's tokens followed by the final
    end-of-stream token. -/
lemma tokenize_eq_concat (s : List Char) :
    tokenize s = ((lexLoop s (s.length + 1) 0 1).toks.map Prod.fst)
      ++ [make_token .END_OF_FILE "" (lexLoop s (s.length + 1) 0 1).line] := by
  simp [tokenize, tokenizeI]

/-- C3 amended: for every input, the token sequence ends with an end-of-stream
    token whose value is empty, and any earlier token of the end-of-stream
    kind is the sentinel (value "ERROR") substituted for an unterminated
    string literal — so the end-of-stream kind occurs exactly once unless an
    unterminated string literal was encountered. -/
theorem c3_last_token_eof_and_sentinels (s : List Char) :
    ((tokenize s).getLast?.map (fun t => (t.type, t.value)) = some (.END_OF_FILE, ""))
      ∧ (∀ t ∈ (tokenize s).dropLast, t.type = .END_OF_FILE → t.value = "ERROR") := by
  constructor
  · rw [tokenize_eq_concat, List.getLast?_concat]; rfl
  · rw [tokenize_eq_concat, List.dropLast_concat]
    intro t ht htype
    obtain ⟨tp, htp, rfl⟩ := List.mem_map.mp ht
    exact lexLoop_eof_val s _ _ _ tp htp htype

/-- C3 amended, witness: on the unterminated-string input `"` the last token
    is the empty-valued end-of-stream token, and the non-final end-of-stream
    token present in the sequence carries the sentinel value "ERROR". -/
theorem c3_last_token_eof_and_sentinels_witness :
    ((tokenize "\"".data).getLast?.map (fun t => (t.type, t.value))
        = some (.END_OF_FILE, ""))
      ∧ (⟨.END_OF_FILE, "ERROR", 1⟩ : Token).value = "ERROR" :=
  ⟨(c3_last_token_eof_and_sentinels "\"".data).1,
    (c3_last_token_eof_and_sentinels "\"".data).2 ⟨.END_OF_FILE, "ERROR", 1⟩
      (by decide) (by decide)⟩

lemma countNL_take_succ_of_ne (s : List Char) {pos : Nat} (h : pos < s.length)
    (hc : peekAt s pos ≠ '\n') : countNL (s.take (pos + 1)) = countNL (s.take pos) := by
  have hp : s[pos] ≠ '\n' := by rwa [peekAt, List.getD_eq_getElem _ _ h] at hc
  rw [countNL, countNL, List.take_succ, List.count_append,
    List.getElem?_eq_getElem h]
  simp [List.count_cons, hp]

lemma countNL_take_succ_of_nl (s : List Char) {pos : Nat} (h : pos < s.length)
    (hc : peekAt s pos = '\n') : countNL (s.take (pos + 1)) = countNL (s.take pos) + 1 := by
  have hp : s[pos] = '\n' := by rwa [peekAt, List.getD_eq_getElem _ _ h] at hc
  rw [countNL, countNL, List.take_succ, List.count_append,
    List.getElem?_eq_getElem h]
  simp [List.count_cons, hp]

lemma isIdentChar_ne_nl {c : Char} (h : isIdentChar c = true) : c ≠ '\n' := by
  rintro rfl; exact absurd h (by decide)

lemma isDigit_ne_nl {c : Char} (h : c.isDigit = true) : c ≠ '\n' := by
  rintro rfl; exact absurd h (by decide)

lemma peekAt_default (s : List Char) {pos : Nat} (h : s.length ≤ pos) :
    peekAt s pos = '\x00' := List.getD_eq_default _ _ h

lemma scanIdent_countNL (s : List Char) :
    ∀ fuel pos, pos ≤ scanIdent s fuel pos ∧
      countNL (s.take (scanIdent s fuel pos)) = countNL (s.take pos) := by
  intro fuel
  induction fuel with
  | zero => intro pos; simp [scanIdent]
  | succ n ih =>
    intro pos
    simp only [scanIdent]
    split
    case isTrue hid =>
      have hlt : pos < s.length := by
        by_contra hge
        rw [peekAt_default s (by omega)] at hid
        exact absurd hid (by decide)
      obtain ⟨h1, h2⟩ := ih (pos + 1)
      refine ⟨by omega, ?_⟩
      rw [h2, countNL_take_succ_of_ne s hlt (isIdentChar_ne_nl hid)]
    case isFalse => exact ⟨le_refl _, rfl⟩

lemma scanNumber_countNL (s : List Char) :
    ∀ fuel pos, pos ≤ scanNumber s fuel pos ∧
      countNL (s.take (scanNumber s fuel pos)) = countNL (s.take pos) := by
  intro fuel
  induction fuel with
  | zero => intro pos; simp [scanNumber]
  | succ n ih =>
    intro pos
    simp only [scanNumber]
    split
    case isTrue hid =>
      have hlt : pos < s.length := by
        by_contra hge
        rw [peekAt_default s (by omega)] at hid
        exact absurd hid (by decide)
      obtain ⟨h1, h2⟩ := ih (pos + 1)
      refine ⟨by omega, ?_⟩
      rw [h2, countNL_take_succ_of_ne s hlt (isDigit_ne_nl hid)]
    case isFalse => exact ⟨le_refl _, rfl⟩

lemma skipComment_countNL (s : List Char) :
    ∀ fuel pos, pos ≤ skipComment s fuel pos ∧
      countNL (s.take (skipComment s fuel pos)) = countNL (s.take pos) := by
  intro fuel
  induction fuel with
  | zero => intro pos; simp [skipComment]
  | succ n ih =>
    intro pos
    simp only [skipComment]
    split
    · exact ⟨le_refl _, rfl⟩
    · split
      · exact ⟨le_refl _, rfl⟩
      · case isFalse.isFalse hge hnl =>
          obtain ⟨h1, h2⟩ := ih (pos + 1)
          refine ⟨by omega, ?_⟩
          rw [h2, countNL_take_succ_of_ne s (by omega) hnl]

lemma skipComment_progress (s : List Char) {pos : Nat} (hlt : pos < s.length)
    (hnl : peekAt s pos ≠ '\n') {fuel : Nat} (hf : 1 ≤ fuel) :
    pos + 1 ≤ skipComment s fuel pos := by
  cases fuel with
  | zero => omega
  | succ m =>
    simp only [skipComment]
    rw [if_neg (by omega), if_neg hnl]
    exact (skipComment_countNL s m (pos + 1)).1



lemma skipWS_spec (s : List Char) :
    ∀ fuel pos line, s.length - pos < fuel →
      pos ≤ (skip_whitespace_and_comments s fuel pos line).1 ∧
      (skip_whitespace_and_comments s fuel pos line).2 + countNL (s.take pos)
        = line + countNL (s.take (skip_whitespace_and_comments s fuel pos line).1) ∧
      (s.length ≤ (skip_whitespace_and_comments s fuel pos line).1 ∨
        peekAt s (skip_whitespace_and_comments s fuel pos line).1 ≠ '\n') := by
  intro fuel
  induction fuel with
  | zero => intro pos line h; omega
  | succ n ih =>
    intro pos line h
    simp only [skip_whitespace_and_comments]
    split_ifs with h1 h2 h3 h4 h5
    · exact ⟨le_refl _, rfl, Or.inl h1⟩
    · -- space / \r / \t
      have hne : peekAt s pos ≠ '\n' := by
        simp only [Bool.or_eq_true, decide_eq_true_eq] at h2
        rcases h2 with (hx | hx) | hx <;> (rw [hx]; decide)
      obtain ⟨g1, g2, g3⟩ := ih (pos + 1) line (by omega)
      exact ⟨by omega, by rw [countNL_take_succ_of_ne s (by omega) hne] at g2; omega, g3⟩
    · -- newline
      obtain ⟨g1, g2, g3⟩ := ih (pos + 1) (line + 1) (by omega)
      refine ⟨by omega, ?_, g3⟩
      rw [countNL_take_succ_of_nl s (by omega) h3] at g2
      omega
    · -- comment
      have hq := @skipComment_progress s pos (by omega)
        (by rw [h4]; decide) (s.length + 1) (by omega)
      obtain ⟨q1, q2⟩ := skipComment_countNL s (s.length + 1) pos
      obtain ⟨g1, g2, g3⟩ := ih (skipComment s (s.length + 1) pos) line (by omega)
      refine ⟨by omega, ?_, g3⟩
      rw [q2] at g2
      omega
    · exact ⟨le_refl _, rfl, Or.inr (by rw [h4]; decide)⟩
    · have hne : peekAt s pos ≠ '\n' := h3
      exact ⟨le_refl _, rfl, Or.inr hne⟩



lemma handle_number_line (s : List Char) (pos line : Nat) :
    (handle_number s pos line).1.line = line := rfl

lemma handle_number_pos (s : List Char) (pos line : Nat) :
    (handle_number s pos line).2 = scanNumber s (s.length + 1) pos := rfl

lemma handle_identifier_line (s : List Char) (pos line : Nat) :
    (handle_identifier s pos line).1.line = line := rfl

lemma handle_identifier_pos (s : List Char) (pos line : Nat) :
    (handle_identifier s pos line).2 = scanIdent s (s.length + 1) pos := rfl

lemma lexLoop_lines (s : List Char) (hs : ∀ c ∈ s, ¬(c = '"' ∨ c = '#')) :
    ∀ fuel pos line, line = 1 + countNL (s.take pos) →
      (∀ tp ∈ (lexLoop s fuel pos line).toks,
          tp.1.line = 1 + countNL (s.take tp.2)) ∧
      (lexLoop s fuel pos line).line
        = 1 + countNL (s.take (lexLoop s fuel pos line).pos) := by
  intro fuel
  induction fuel with
  | zero =>
    intro pos line hline
    exact ⟨by intro tp htp; simp [lexLoop] at htp, by simpa [lexLoop] using hline⟩
  | succ n ih =>
    intro pos line hline
    simp only [lexLoop]
    split
    case isTrue => exact ⟨by intro tp htp; simp at htp, by simpa using hline⟩
    case isFalse h1 =>
      obtain ⟨w1, w2, w3⟩ := skipWS_spec s (s.length + 1) pos line (by omega)
      set ws := skip_whitespace_and_comments s (s.length + 1) pos line with hws
      have hinv1 : ws.2 = 1 + countNL (s.take ws.1) := by omega
      split
      case isTrue => exact ⟨by intro tp htp; simp at htp, by simpa using hinv1⟩
      case isFalse h2 =>
        have hlt : ws.1 < s.length := by omega
        have hcmem : peekAt s ws.1 ∈ s := by
          rw [peekAt, List.getD_eq_getElem _ _ hlt]
          exact List.getElem_mem _
        have hnl : peekAt s ws.1 ≠ '\n' := by
          rcases w3 with h | h
          · omega
          · exact h
        have hstep : countNL (s.take (ws.1 + 1)) = countNL (s.take ws.1) :=
          countNL_take_succ_of_ne s hlt hnl
        split
        case h_1 ty heq =>
          obtain ⟨r1, r2⟩ := ih (ws.1 + 1) ws.2 (by rw [hstep]; exact hinv1)
          refine ⟨?_, r2⟩
          intro tp htp
          simp only [consTok, List.mem_cons] at htp
          rcases htp with rfl | htp
          · simpa [make_token] using hinv1
          · exact r1 tp htp
        case h_2 heq =>
          split
          case isTrue hhash => exact absurd (Or.inr hhash) (hs _ hcmem)
          case isFalse hhash =>
            split
            case isTrue hquote => exact absurd (Or.inl hquote) (hs _ hcmem)
            case isFalse hquote =>
              split
              case isTrue hdig =>
                obtain ⟨e1, e2⟩ := scanNumber_countNL s (s.length + 1) ws.1
                obtain ⟨r1, r2⟩ := ih (handle_number s ws.1 ws.2).2 ws.2
                  (by rw [handle_number_pos, e2]; exact hinv1)
                refine ⟨?_, r2⟩
                intro tp htp
                simp only [consTok, List.mem_cons] at htp
                rcases htp with rfl | htp
                · simpa [handle_number_line] using hinv1
                · exact r1 tp htp
              case isFalse hdig =>
                split
                case isTrue hal =>
                  obtain ⟨e1, e2⟩ := scanIdent_countNL s (s.length + 1) ws.1
                  obtain ⟨r1, r2⟩ := ih (handle_identifier s ws.1 ws.2).2 ws.2
                    (by rw [handle_identifier_pos, e2]; exact hinv1)
                  refine ⟨?_, r2⟩
                  intro tp htp
                  simp only [consTok, List.mem_cons] at htp
                  rcases htp with rfl | htp
                  · simpa [handle_identifier_line] using hinv1
                  · exact r1 tp htp
                case isFalse hal =>
                  exact ih (ws.1 + 1) ws.2 (by rw [hstep]; exact hinv1)

/-- C6 amended: on sources containing no double quote and no `#` (string
    literals spanning newlines report the line of their closing quote, and the
    unconditional six-character `#include` skip can consume newlines without
    counting them), every token produced by the lexer — the final end-of-stream
    token included — reports line `N + 1`, where `N` is the number of newline
    characters occurring in the source before the token's start position. -/
theorem c6_line_numbers_without_strings_and_hash (s : List Char)
    (hs : ∀ c ∈ s, c ≠ '"' ∧ c ≠ '#') :
    ∀ tp ∈ tokenizeI s, (tp : Token × Nat).1.line = 1 + countNL (s.take tp.2) := by
  have hs' : ∀ c ∈ s, ¬(c = '"' ∨ c = '#') := by
    intro c hc
    obtain ⟨ha, hb⟩ := hs c hc
    rintro (h | h) <;> contradiction
  obtain ⟨hm, hfin⟩ := lexLoop_lines s hs' (s.length + 1) 0 1 (by simp [countNL])
  intro tp htp
  simp only [tokenizeI, List.mem_append, List.mem_singleton] at htp
  rcases htp with h | rfl
  · exact hm tp h
  · exact hfin

/-- C6 amended, witness: on the two-line quote-free source `a\nb` the token
    `b`, which starts at position 2 with one newline before it, reports
    line 2. -/
theorem c6_line_numbers_without_strings_and_hash_witness :
    (⟨⟨.IDENTIFIER, "b", 2⟩, 2⟩ : Token × Nat).1.line
      = 1 + countNL (("a\nb".data).take 2) :=
  c6_line_numbers_without_strings_and_hash "a\nb".data (by decide)
    ⟨⟨.IDENTIFIER, "b", 2⟩, 2⟩ (by decide)

/-- C6 counterexample: the claim fails on the source `"a\nb"` (a string
    literal spanning a newline): the string token starts at position 0, with
    zero newlines before it, yet its line field is 2 (the line of the closing
    quote), not 1. -/
theorem c6_multiline_string_line_counterexample :
    ¬ lineNumberClaim "\"a\nb\"".data := by
  unfold lineNumberClaim
  decide

/-- Helper: the identifier scan returns the end of the maximal
    alphanumeric/underscore run starting at `pos`. -/
lemma scanIdent_spec (s : List Char) :
    ∀ fuel pos, s.length - pos < fuel →
      scanIdent s fuel pos = pos + ((s.drop pos).takeWhile isIdentChar).length := by
  intro fuel
  induction fuel with
  | zero => intro pos h; omega
  | succ n ih =>
    intro pos h
    simp only [scanIdent]
    by_cases hlt : pos < s.length
    · rw [List.drop_eq_getElem_cons hlt]
      rw [peekAt, List.getD_eq_getElem _ _ hlt]
      by_cases hid : isIdentChar s[pos]
      · simp only [hid, if_true, List.takeWhile_cons, List.length_cons]
        rw [ih (pos + 1) (by omega)]
        omega
      · simp [hid, List.takeWhile_cons]
    · have hnil : s.drop pos = [] := List.drop_eq_nil_of_le (by omega)
      rw [peekAt, List.getD_eq_default _ _ (by omega)]
      simp [hnil, isIdentChar]

/-- C7: keyword recognition is maximal-munch and exact: `handle_identifier`
    consumes the whole maximal alphanumeric/underscore run, its token's text
    is that run, and its kind is obtained by looking the complete run up in
    the keyword table (exact, case-sensitive string comparison, `IDENTIFIER`
    otherwise); consequently `intx` lexes to a single identifier token, never
    to the keyword `int` followed by `x`. -/
theorem c7_maximal_munch_keywords :
    (∀ (s : List Char) (pos line : Nat),
        (handle_identifier s pos line).1.value
            = String.mk ((s.drop pos).takeWhile isIdentChar)
          ∧ (handle_identifier s pos line).2
            = pos + ((s.drop pos).takeWhile isIdentChar).length
          ∧ (handle_identifier s pos line).1.type
            = (keywords (String.mk ((s.drop pos).takeWhile isIdentChar))).getD .IDENTIFIER)
      ∧ tokenize "intx".data = [⟨.IDENTIFIER, "intx", 1⟩, ⟨.END_OF_FILE, "", 1⟩] := by
  constructor
  · intro s pos line
    have hs := scanIdent_spec s (s.length + 1) pos (by omega)
    have hval : slice s pos (scanIdent s (s.length + 1) pos)
        = String.mk ((s.drop pos).takeWhile isIdentChar) := by
      rw [hs, slice]
      congr 1
      have heq : pos + ((s.drop pos).takeWhile isIdentChar).length - pos
          = ((s.drop pos).takeWhile isIdentChar).length := by omega
      rw [heq]
      exact (List.prefix_iff_eq_take.mp (List.takeWhile_prefix _)).symm
    refine ⟨?_, ?_, ?_⟩
    · simp only [handle_identifier, make_token, hval]
    · simp only [handle_identifier, make_token, hs]
    · simp only [handle_identifier, make_token, hval]
  · rfl

/- ------------------------------------------------------------------
   Parser lemmas: bounds safety (C10), the skip-and-warn step (C4), and
   the shape of every statement the parser can produce (C8, C9).
   ------------------------------------------------------------------ -/

/-- Helper: in a sequence ending with an end-of-stream token, any position
    holding a token of another kind is followed by at least one more token. -/
lemma EndsWithEOF.pos_lt {toks : List Token} (hE : EndsWithEOF toks)
    {pos : Nat} {t : Token} (hp : toks[pos]? = some t) (ht : t.type ≠ .END_OF_FILE) :
    pos + 1 < toks.length := by
  obtain ⟨tl, hl, he⟩ := hE
  have hlen : pos < toks.length := (List.getElem?_eq_some_iff.mp hp).1
  rcases Nat.lt_or_ge (pos + 1) toks.length with h | h
  · exact h
  · exfalso
    have hpe : pos = toks.length - 1 := by omega
    rw [List.getLast?_eq_getElem?, ← hpe, hp] at hl
    injection hl with hl
    subst hl
    exact ht he

/-- Helper: `advance` on a non-end-of-stream token steps one position. -/
lemma advanceTok_ok {toks : List Token} {pos : Nat} {t : Token}
    (hp : toks[pos]? = some t) (ht : t.type ≠ .END_OF_FILE) :
    advanceTok toks pos = some (t, pos + 1) := by
  simp only [advanceTok, hp]
  rw [if_neg ht]

/-- Helper: `check` at an in-bounds position computes the comparison. -/
lemma check_some {toks : List Token} {pos : Nat} {t : Token} (hp : toks[pos]? = some t)
    (ty : TokenType) :
    check toks pos ty = some (decide (¬ t.type = .END_OF_FILE ∧ t.type = ty)) := by
  unfold check
  rw [hp]

/-- Helper: `expect` at an in-bounds position never goes out of bounds, and on
    success it advances exactly one token, staying in bounds. -/
lemma expect_safe {toks : List Token} (hE : EndsWithEOF toks) {pos : Nat}
    (hpos : pos < toks.length) (ty : TokenType) (msg : String) :
    expect toks pos ty msg ≠ .oob ∧
    ∀ tk p' w, expect toks pos ty msg = .ok tk p' w →
      p' = pos + 1 ∧ p' < toks.length ∧ w = [] := by
  obtain ⟨t, hp⟩ : ∃ t, toks[pos]? = some t := by
    rw [List.getElem?_eq_getElem hpos]; exact ⟨_, rfl⟩
  by_cases hb : (¬ t.type = .END_OF_FILE ∧ t.type = ty)
  · simp only [expect, check_some hp ty, decide_eq_true hb, advanceTok_ok hp hb.1]
    constructor
    · intro h; cases h
    · intro tk p' w h
      cases h
      exact ⟨rfl, hE.pos_lt hp hb.1, rfl⟩
  · simp only [expect, check_some hp ty, decide_eq_false hb]
    constructor
    · intro h; cases h
    · intro tk p' w h; cases h

/-- Helper: `parse_expression` at an in-bounds position never goes out of
    bounds, and on success advances one token, staying in bounds. -/
lemma parse_expression_safe {toks : List Token} (hE : EndsWithEOF toks) {pos : Nat}
    (hpos : pos < toks.length) :
    parse_expression toks pos ≠ .oob ∧
    ∀ e p' w, parse_expression toks pos = .ok e p' w →
      p' = pos + 1 ∧ p' < toks.length := by
  obtain ⟨t, hp⟩ : ∃ t, toks[pos]? = some t := by
    rw [List.getElem?_eq_getElem hpos]; exact ⟨_, rfl⟩
  by_cases hb : (¬ t.type = .END_OF_FILE ∧ t.type = .NUMBER_LITERAL)
  · simp only [parse_expression, check_some hp _, decide_eq_true hb, advanceTok_ok hp hb.1]
    constructor
    · intro h; cases h
    · intro e p' w h
      cases h
      exact ⟨rfl, hE.pos_lt hp hb.1⟩
  · simp only [parse_expression, check_some hp _, decide_eq_false hb]
    constructor
    · intro h; cases h
    · intro e p' w h; cases h

/-- Helper: `parse_return_statement` on a non-end-of-stream token is
    bounds-safe and makes progress. -/
lemma parse_return_safe {toks : List Token} (hE : EndsWithEOF toks) {pos : Nat} {t : Token}
    (hp : toks[pos]? = some t) (ht : t.type ≠ .END_OF_FILE) :
    parse_return_statement toks pos ≠ .oob ∧
    ∀ st p' w, parse_return_statement toks pos = .ok st p' w →
      pos < p' ∧ p' < toks.length := by
  have h1 : pos + 1 < toks.length := hE.pos_lt hp ht
  obtain ⟨e_ne, e_ok⟩ := parse_expression_safe hE h1
  simp only [parse_return_statement, advanceTok_ok hp ht]
  rcases hx : parse_expression toks (pos + 1) with ⟨e, p2, w2⟩ | ⟨m, w⟩ | _
  · simp only [hx]
    obtain ⟨hp2eq, hp2lt⟩ := e_ok e p2 w2 hx
    obtain ⟨x_ne, x_ok⟩ := expect_safe hE hp2lt .SEMICOLON "Expected ';' after return value."
    rcases hy : expect toks p2 .SEMICOLON "Expected ';' after return value." with
      ⟨tk, p3, w3⟩ | ⟨m3, w3⟩ | _
    · simp only [hy]
      obtain ⟨hp3eq, hp3lt, hw3⟩ := x_ok tk p3 w3 hy
      constructor
      · intro h; cases h
      · intro st p' w h
        cases h
        exact ⟨by omega, hp3lt⟩
    · simp only [hy]
      constructor
      · intro h; cases h
      · intro st p' w h; cases h
    · exact absurd hy x_ne
  · simp only [hx]
    constructor
    · intro h; cases h
    · intro st p' w h; cases h
  · exact absurd hx e_ne

/-- Helper: `parse_statement` on a non-end-of-stream token is bounds-safe
    and makes progress. -/
lemma parse_statement_safe {toks : List Token} (hE : EndsWithEOF toks) {pos : Nat} {t : Token}
    (hp : toks[pos]? = some t) (ht : t.type ≠ .END_OF_FILE) :
    parse_statement toks pos ≠ .oob ∧
    ∀ o p' w, parse_statement toks pos = .ok o p' w →
      pos < p' ∧ p' < toks.length := by
  by_cases hb : (¬ t.type = .END_OF_FILE ∧ t.type = .RETURN)
  · obtain ⟨r_ne, r_ok⟩ := parse_return_safe hE hp ht
    simp only [parse_statement, check_some hp _, decide_eq_true hb]
    rcases hx : parse_return_statement toks pos with ⟨st, p2, w2⟩ | ⟨m, w⟩ | _
    · simp only [hx]
      constructor
      · intro h; cases h
      · intro o p' w h
        cases h
        exact r_ok st p2 w2 hx
    · simp only [hx]
      constructor
      · intro h; cases h
      · intro o p' w h; cases h
    · exact absurd hx r_ne
  · simp only [parse_statement, check_some hp _, decide_eq_false hb, advanceTok_ok hp ht]
    constructor
    · intro h; cases h
    · intro o p' w h
      cases h
      exact ⟨by omega, hE.pos_lt hp ht⟩

/-- Helper: the block-statement loop is bounds-safe given enough fuel. -/
lemma blockLoop_safe {toks : List Token} (hE : EndsWithEOF toks) :
    ∀ fuel pos, pos < toks.length → toks.length - pos ≤ fuel →
      blockLoop toks fuel pos ≠ .oob ∧
      ∀ l p' w, blockLoop toks fuel pos = .ok l p' w →
        pos ≤ p' ∧ p' < toks.length := by
  intro fuel
  induction fuel with
  | zero => intro pos hpos hf; omega
  | succ n ih =>
    intro pos hpos hf
    obtain ⟨t, hp⟩ : ∃ t, toks[pos]? = some t := by
      rw [List.getElem?_eq_getElem hpos]; exact ⟨_, rfl⟩
    simp only [blockLoop, hp]
    by_cases hex : (t.type = .CLOSE_BRACE ∨ t.type = .END_OF_FILE)
    · rw [if_pos hex]
      constructor
      · intro h; cases h
      · intro l p' w h
        cases h
        exact ⟨le_refl _, hpos⟩
    · rw [if_neg hex]
      have ht : t.type ≠ .END_OF_FILE := fun h => hex (Or.inr h)
      obtain ⟨s_ne, s_ok⟩ := parse_statement_safe hE hp ht
      rcases hx : parse_statement toks pos with ⟨o, p2, w2⟩ | ⟨m, w⟩ | _
      · simp only [hx]
        obtain ⟨hp2gt, hp2lt⟩ := s_ok o p2 w2 hx
        obtain ⟨b_ne, b_ok⟩ := ih p2 hp2lt (by omega)
        rcases hy : blockLoop toks n p2 with ⟨l2, p3, w3⟩ | ⟨m3, w3⟩ | _
        · simp only [hy]
          obtain ⟨hp3ge, hp3lt⟩ := b_ok l2 p3 w3 hy
          constructor
          · intro h; cases h
          · intro l p' w h
            cases h
            exact ⟨by omega, hp3lt⟩
        · simp only [hy]
          constructor
          · intro h; cases h
          · intro l p' w h; cases h
        · exact absurd hy b_ne
      · simp only [hx]
        constructor
        · intro h; cases h
        · intro l p' w h; cases h
      · exact absurd hx s_ne

/-- Helper: `parse_block_statement` at an in-bounds position is bounds-safe
    and makes progress. -/
lemma parse_block_safe {toks : List Token} (hE : EndsWithEOF toks) {pos : Nat}
    (hpos : pos < toks.length) :
    parse_block_statement toks pos ≠ .oob ∧
    ∀ st p' w, parse_block_statement toks pos = .ok st p' w →
      pos < p' ∧ p' < toks.length := by
  obtain ⟨x_ne, x_ok⟩ := expect_safe hE hpos .OPEN_BRACE "Expected '\x7b' to begin a block."
  simp only [parse_block_statement]
  rcases hx : expect toks pos .OPEN_BRACE "Expected '\x7b' to begin a block." with
    ⟨tk, p1, w1⟩ | ⟨m, w⟩ | _
  · simp only [hx]
    obtain ⟨hp1eq, hp1lt, hw1⟩ := x_ok tk p1 w1 hx
    obtain ⟨b_ne, b_ok⟩ := blockLoop_safe hE (toks.length + 1) p1 hp1lt (by omega)
    rcases hy : blockLoop toks (toks.length + 1) p1 with ⟨l2, p2, w2⟩ | ⟨m2, w2⟩ | _
    · simp only [hy]
      obtain ⟨hp2ge, hp2lt⟩ := b_ok l2 p2 w2 hy
      obtain ⟨y_ne, y_ok⟩ := expect_safe hE hp2lt .CLOSE_BRACE "Expected '\x7d' to end a block."
      rcases hz : expect toks p2 .CLOSE_BRACE "Expected '\x7d' to end a block." with
        ⟨tk3, p3, w3⟩ | ⟨m3, w3⟩ | _
      · simp only [hz]
        obtain ⟨hp3eq, hp3lt, hw3⟩ := y_ok tk3 p3 w3 hz
        constructor
        · intro h; cases h
        · intro st p' w h
          cases h
          exact ⟨by omega, hp3lt⟩
      · simp only [hz]
        constructor
        · intro h; cases h
        · intro st p' w h; cases h
      · exact absurd hz y_ne
    · simp only [hy]
      constructor
      · intro h; cases h
      · intro st p' w h; cases h
    · exact absurd hy b_ne
  · simp only [hx]
    constructor
    · intro h; cases h
    · intro st p' w h; cases h
  · exact absurd hx x_ne

/-- Helper: `parse_function_definition` on a non-end-of-stream token is
    bounds-safe and makes progress. -/
lemma parse_function_safe {toks : List Token} (hE : EndsWithEOF toks) {pos : Nat} {t : Token}
    (hp : toks[pos]? = some t) (ht : t.type ≠ .END_OF_FILE) :
    parse_function_definition toks pos ≠ .oob ∧
    ∀ st p' w, parse_function_definition toks pos = .ok st p' w →
      pos < p' ∧ p' < toks.length := by
  have h1 : pos + 1 < toks.length := hE.pos_lt hp ht
  simp only [parse_function_definition, advanceTok_ok hp ht]
  obtain ⟨a_ne, a_ok⟩ := expect_safe hE h1 .IDENTIFIER "Expected function name."
  rcases ha : expect toks (pos + 1) .IDENTIFIER "Expected function name." with
    ⟨nm, p2, w2⟩ | ⟨m, w⟩ | _
  · simp only [ha]
    obtain ⟨hp2eq, hp2lt, hw2⟩ := a_ok nm p2 w2 ha
    obtain ⟨b_ne, b_ok⟩ := expect_safe hE hp2lt .OPEN_PAREN "Expected '(' after function name."
    rcases hb : expect toks p2 .OPEN_PAREN "Expected '(' after function name." with
      ⟨tk3, p3, w3⟩ | ⟨m3, w3⟩ | _
    · simp only [hb]
      obtain ⟨hp3eq, hp3lt, hw3⟩ := b_ok tk3 p3 w3 hb
      obtain ⟨c_ne, c_ok⟩ := expect_safe hE hp3lt .CLOSE_PAREN "Expected ')' after parameters."
      rcases hc : expect toks p3 .CLOSE_PAREN "Expected ')' after parameters." with
        ⟨tk4, p4, w4⟩ | ⟨m4, w4⟩ | _
      · simp only [hc]
        obtain ⟨hp4eq, hp4lt, hw4⟩ := c_ok tk4 p4 w4 hc
        obtain ⟨d_ne, d_ok⟩ := parse_block_safe hE hp4lt
        rcases hd : parse_block_statement toks p4 with ⟨body, p5, w5⟩ | ⟨m5, w5⟩ | _
        · simp only [hd]
          obtain ⟨hp5gt, hp5lt⟩ := d_ok body p5 w5 hd
          constructor
          · intro h; cases h
          · intro st p' w h
            cases h
            exact ⟨by omega, hp5lt⟩
        · simp only [hd]
          constructor
          · intro h; cases h
          · intro st p' w h; cases h
        · exact absurd hd d_ne
      · simp only [hc]
        constructor
        · intro h; cases h
        · intro st p' w h; cases h
      · exact absurd hc c_ne
    · simp only [hb]
      constructor
      · intro h; cases h
      · intro st p' w h; cases h
    · exact absurd hb b_ne
  · simp only [ha]
    constructor
    · intro h; cases h
    · intro st p' w h; cases h
  · exact absurd ha a_ne

/-- Helper: `parse_declaration` on a non-end-of-stream token is bounds-safe
    (the raw lookahead included) and makes progress. -/
lemma parse_declaration_safe {toks : List Token} (hE : EndsWithEOF toks) {pos : Nat} {t : Token}
    (hp : toks[pos]? = some t) (ht : t.type ≠ .END_OF_FILE) :
    parse_declaration toks pos ≠ .oob ∧
    ∀ o p' w, parse_declaration toks pos = .ok o p' w →
      pos < p' ∧ p' < toks.length := by
  by_cases hb : (¬ t.type = .END_OF_FILE ∧ t.type = .INT)
  · have h1 : pos + 1 < toks.length := hE.pos_lt hp hb.1
    obtain ⟨u, hu⟩ : ∃ u, toks[pos + 1]? = some u := by
      rw [List.getElem?_eq_getElem h1]; exact ⟨_, rfl⟩
    simp only [parse_declaration, check_some hp _, decide_eq_true hb, hu]
    by_cases hui : u.type = .IDENTIFIER
    · rw [if_pos hui]
      obtain ⟨f_ne, f_ok⟩ := parse_function_safe hE hp ht
      rcases hx : parse_function_definition toks pos with ⟨st, p2, w2⟩ | ⟨m, w⟩ | _
      · simp only [hx]
        constructor
        · intro h; cases h
        · intro o p' w h
          cases h
          exact f_ok st p2 w2 hx
      · simp only [hx]
        constructor
        · intro h; cases h
        · intro o p' w h; cases h
      · exact absurd hx f_ne
    · rw [if_neg hui]
      simp only [advanceTok_ok hp ht]
      constructor
      · intro h; cases h
      · intro o p' w h
        cases h
        exact ⟨by omega, hE.pos_lt hp ht⟩
  · simp only [parse_declaration, check_some hp _, decide_eq_false hb, advanceTok_ok hp ht]
    constructor
    · intro h; cases h
    · intro o p' w h
      cases h
      exact ⟨by omega, hE.pos_lt hp ht⟩

/-- Helper: the top-level parse loop completes (no out-of-bounds access)
    given enough fuel. -/
lemma parseLoop_some {toks : List Token} (hE : EndsWithEOF toks) :
    ∀ fuel pos, pos < toks.length → toks.length - pos < fuel →
      (parseLoop toks fuel pos).isSome := by
  intro fuel
  induction fuel with
  | zero => intro pos hpos hf; omega
  | succ n ih =>
    intro pos hpos hf
    obtain ⟨t, hp⟩ : ∃ t, toks[pos]? = some t := by
      rw [List.getElem?_eq_getElem hpos]; exact ⟨_, rfl⟩
    simp only [parseLoop, hp]
    by_cases ht : t.type = .END_OF_FILE
    · rw [if_pos ht]; rfl
    · rw [if_neg ht]
      obtain ⟨d_ne, d_ok⟩ := parse_declaration_safe hE hp ht
      rcases hx : parse_declaration toks pos with ⟨o, p2, w2⟩ | ⟨m, w⟩ | _
      · simp only [hx]
        obtain ⟨hgt, hlt⟩ := d_ok o p2 w2 hx
        have hrec := ih p2 hlt (by omega)
        rcases hy : parseLoop toks n p2 with _ | ⟨l, ds⟩
        · rw [hy] at hrec; cases hrec
        · simp only [hy, Option.isSome_some]
      · simp only [hx, Option.isSome_some]
      · exact absurd hx d_ne

/-- C10: for every token sequence that ends with an end-of-stream token (as
    `tokenize` guarantees), the parser never reads past the end of the token
    vector: every `peek` and the one-token lookahead in `parse_declaration`
    are in bounds, so `parse` completes with a result (the out-of-bounds
    outcome, modelled as `none`, is never produced). -/
theorem c10_parser_in_bounds {toks : List Token} {tl : Token}
    (hlast : toks.getLast? = some tl) (heof : tl.type = .END_OF_FILE) :
    (parse toks).isSome := by
  have hne : toks ≠ [] := by intro he; subst he; simp at hlast
  have hpos : 0 < toks.length := List.length_pos.mpr hne
  have hE : EndsWithEOF toks := ⟨tl, hlast, heof⟩
  have hrun := parseLoop_some hE (toks.length + 1 - 0) 0 hpos (by omega)
  simp only [parse, parseFrom]
  rcases hy : parseLoop toks (toks.length + 1 - 0) 0 with _ | ⟨l, ds⟩
  · rw [hy] at hrun; cases hrun
  · rfl

/-- C10, witness at the one-token sequence holding only the end-of-stream
    token. -/
theorem c10_parser_in_bounds_witness :
    (parse [(⟨.END_OF_FILE, "", 1⟩ : Token)]).isSome :=
  @c10_parser_in_bounds [⟨.END_OF_FILE, "", 1⟩] ⟨.END_OF_FILE, "", 1⟩ rfl rfl

/-- Helper: a successful `parse_return_statement` yields a return node with a
    present expression. -/
lemma parse_return_shape {toks : List Token} {pos : Nat} {st : Stmt} {p : Nat} {w : List String}
    (h : parse_return_statement toks pos = .ok st p w) :
    ∃ e, st = .ret (some e) := by
  simp only [parse_return_statement] at h
  repeat' split at h
  all_goals cases h
  all_goals exact ⟨_, rfl⟩

/-- Helper: a successful `parse_statement` yields either a null statement or
    a return node with a present expression. -/
lemma parse_statement_shape {toks : List Token} {pos : Nat} {o : Option Stmt} {p : Nat}
    {w : List String} (h : parse_statement toks pos = .ok o p w) :
    o = none ∨ ∃ e, o = some (.ret (some e)) := by
  simp only [parse_statement] at h
  split at h
  · cases h
  · split at h
    case h_1 s p2 w2 heq =>
      cases h
      obtain ⟨e, rfl⟩ := parse_return_shape heq
      exact Or.inr ⟨e, rfl⟩
    · cases h
    · cases h
  · split at h
    · cases h
    · cases h
      exact Or.inl rfl

/-- Helper: the statement list built by the block loop has no null entries,
    all its return nodes carry expressions, and its blocks are clean. -/
lemma blockLoop_shape {toks : List Token} :
    ∀ fuel pos l p w, blockLoop toks fuel pos = .ok l p w →
      returnsOkList l = true ∧ blocksCleanEntries l = true := by
  intro fuel
  induction fuel with
  | zero => intro pos l p w h; cases h
  | succ n ih =>
    intro pos l p w h
    simp only [blockLoop] at h
    split at h
    · cases h
    · split at h
      · cases h
        exact ⟨rfl, rfl⟩
      · split at h
        · cases h
        · cases h
        · next o p2 w2 heq =>
            split at h
            · cases h
            · cases h
            · next l2 p3 w3 heq2 =>
                cases h
                obtain ⟨r2, c2⟩ := ih p2 l2 _ _ heq2
                rcases parse_statement_shape heq with rfl | ⟨e, rfl⟩
                · simpa using ⟨r2, c2⟩
                · simp only [List.singleton_append, returnsOkList, returnsOkStmt,
                    blocksCleanEntries, blocksCleanStmt, Option.isSome_some, Bool.true_and]
                  exact ⟨r2, c2⟩

/-- Helper: a successful `parse_block_statement` yields a block whose entry
    list is null-free with well-formed returns. -/
lemma parse_block_shape {toks : List Token} {pos : Nat} {st : Stmt} {p : Nat} {w : List String}
    (h : parse_block_statement toks pos = .ok st p w) :
    ∃ l, st = .block l ∧ returnsOkList l = true ∧ blocksCleanEntries l = true := by
  simp only [parse_block_statement] at h
  split at h
  · cases h
  · cases h
  · next tk p1 w1 heq1 =>
      split at h
      · cases h
      · cases h
      · next l2 p2 w2 heq2 =>
          split at h
          · cases h
          · cases h
          · next tk3 p3 w3 heq3 =>
              cases h
              obtain ⟨r2, c2⟩ := blockLoop_shape _ _ l2 _ _ heq2
              exact ⟨l2, rfl, r2, c2⟩

/-- Helper: a successful `parse_function_definition` yields a statement whose
    returns are well-formed and whose blocks are null-free. -/
lemma parse_function_shape {toks : List Token} {pos : Nat} {st : Stmt} {p : Nat}
    {w : List String} (h : parse_function_definition toks pos = .ok st p w) :
    returnsOkStmt st = true ∧ blocksCleanStmt st = true := by
  simp only [parse_function_definition] at h
  split at h
  · cases h
  · next ty pos1 heq0 =>
      split at h
      · cases h
      · cases h
      · next nm pos2 w2 heq1 =>
          split at h
          · cases h
          · cases h
          · next tk3 pos3 w3 heq2 =>
              split at h
              · cases h
              · cases h
              · next tk4 pos4 w4 heq3 =>
                  split at h
                  · cases h
                  · cases h
                  · next body pos5 w5 heq4 =>
                      cases h
                      obtain ⟨l, rfl, r, c⟩ := parse_block_shape heq4
                      constructor
                      · simp [returnsOkStmt, r]
                      · simp [blocksCleanStmt, c]

/-- Helper: every present statement a successful `parse_declaration`
    produces has well-formed returns and null-free blocks. -/
lemma parse_declaration_shape {toks : List Token} {pos : Nat} {o : Option Stmt} {p : Nat}
    {w : List String} (h : parse_declaration toks pos = .ok o p w) :
    ∀ st, o = some st → returnsOkStmt st = true ∧ blocksCleanStmt st = true := by
  simp only [parse_declaration] at h
  split at h
  · cases h
  · split at h
    · cases h
    · next u hequ =>
        split at h
        · split at h
          · cases h
          · cases h
          · next st2 p2 w2 heqf =>
              cases h
              intro st hst
              injection hst with hst
              subst hst
              exact parse_function_shape heqf
        · split at h
          · cases h
          · next t2 p2 heqa =>
              cases h
              intro st hst
              cases hst
  · split at h
    · cases h
    · next t2 p2 heqa =>
        cases h
        intro st hst
        cases hst

/-- Helper: every present statement in a completed parse has well-formed
    returns and null-free blocks. -/
lemma parseLoop_shape {toks : List Token} :
    ∀ fuel pos l ds, parseLoop toks fuel pos = some (l, ds) →
      ∀ o ∈ l, ∀ st, o = some st →
        returnsOkStmt st = true ∧ blocksCleanStmt st = true := by
  intro fuel
  induction fuel with
  | zero => intro pos l ds h; cases h
  | succ n ih =>
    intro pos l ds h
    simp only [parseLoop] at h
    split at h
    · cases h
    · split at h
      · cases h
        intro o ho
        simp at ho
      · split at h
        · cases h
        · cases h
          intro o ho
          simp at ho
        · next o2 p2 w2 heqd =>
            split at h
            · cases h
            · next l2 ds2 heqr =>
                cases h
                intro o ho st hst
                rcases List.mem_cons.mp ho with rfl | ho
                · exact parse_declaration_shape heqd st hst
                · exact ih p2 l2 _ heqr o ho st hst

/-- Helper: entrywise well-formed returns give a well-formed list. -/
lemma returnsOkList_of_entries {l : List (Option Stmt)}
    (h : ∀ o ∈ l, ∀ st, o = some st → returnsOkStmt st = true) :
    returnsOkList l = true := by
  induction l with
  | nil => rfl
  | cons o rest ih =>
    cases o with
    | none =>
      simp only [returnsOkList]
      exact ih (fun o ho st hst => h o (List.mem_cons_of_mem _ ho) st hst)
    | some s =>
      simp only [returnsOkList, Bool.and_eq_true]
      exact ⟨h (some s) (List.mem_cons_self _ _) s rfl,
        ih (fun o ho st hst => h o (List.mem_cons_of_mem _ ho) st hst)⟩

/-- C8: every `ret` node in a program returned by `parse` has a present
    expression, and `parse_expression` fails with the fixed syntax error —
    rather than producing an empty expression — whenever the current token is
    not a numeric literal. -/
theorem c8_return_expression_present :
    (∀ (toks : List Token) (r : Program × List String), parse toks = some r →
        returnsOkList r.1.statements = true)
      ∧ (∀ (toks : List Token) (pos : Nat) (t : Token), toks[pos]? = some t →
          t.type ≠ .NUMBER_LITERAL →
          parse_expression toks pos = .err "Expected an expression (e.g., a number)." []) := by
  constructor
  · intro toks r h
    simp only [parse, parseFrom] at h
    rcases hx : parseLoop toks (toks.length + 1 - 0) 0 with _ | ⟨l, ds⟩
    · rw [hx] at h; cases h
    · rw [hx] at h
      cases h
      exact returnsOkList_of_entries
        (fun o ho st hst => (parseLoop_shape _ _ l ds hx o ho st hst).1)
  · intro toks pos t hp ht
    have hb : ¬(¬ t.type = .END_OF_FILE ∧ t.type = .NUMBER_LITERAL) :=
      fun hcon => ht hcon.2
    simp only [parse_expression, check_some hp _, decide_eq_false hb]

/-- C8, witness: the parsed program for `int main() { return 0; }`-shaped
    tokens has only present return expressions, and `parse_expression` on a
    semicolon yields the syntax error. -/
theorem c8_return_expression_present_witness :
    returnsOkList [some (.funcDef "int" "main"
        (some (.block [some (.ret (some (.numberLiteral "0")))])))] = true
      ∧ parse_expression [(⟨.SEMICOLON, ";", 1⟩ : Token)] 0
          = .err "Expected an expression (e.g., a number)." [] :=
  ⟨c8_return_expression_present.1
      [⟨.INT, "int", 1⟩, ⟨.IDENTIFIER, "main", 1⟩, ⟨.OPEN_PAREN, "(", 1⟩,
        ⟨.CLOSE_PAREN, ")", 1⟩, ⟨.OPEN_BRACE, "\x7b", 1⟩, ⟨.RETURN, "return", 1⟩,
        ⟨.NUMBER_LITERAL, "0", 1⟩, ⟨.SEMICOLON, ";", 1⟩, ⟨.CLOSE_BRACE, "\x7d", 1⟩,
        ⟨.END_OF_FILE, "", 1⟩]
      (⟨[some (.funcDef "int" "main"
          (some (.block [some (.ret (some (.numberLiteral "0")))])))]⟩, []) rfl,
    c8_return_expression_present.2 [⟨.SEMICOLON, ";", 1⟩] 0 ⟨.SEMICOLON, ";", 1⟩ rfl
      (by decide)⟩

/-- C9: no block node in a program returned by `parse` contains a null entry:
    skipped-and-warned statements inside a block contribute nothing to the
    block's list, so null entries can occur only in the program's top-level
    list. -/
theorem c9_blocks_null_free :
    ∀ (toks : List Token) (r : Program × List String), parse toks = some r →
      ∀ o ∈ r.1.statements, ∀ st, o = some st → blocksCleanStmt st = true := by
  intro toks r h
  simp only [parse, parseFrom] at h
  rcases hx : parseLoop toks (toks.length + 1 - 0) 0 with _ | ⟨l, ds⟩
  · rw [hx] at h; cases h
  · rw [hx] at h
    cases h
    exact fun o ho st hst => (parseLoop_shape _ _ l ds hx o ho st hst).2

/-- C9, witness: in the program parsed from tokens containing a skipped
    semicolon inside the block, the function's block is null-free. -/
theorem c9_blocks_null_free_witness :
    blocksCleanStmt (.funcDef "int" "main"
        (some (.block [some (.ret (some (.numberLiteral "0")))]))) = true :=
  c9_blocks_null_free
    [⟨.INT, "int", 1⟩, ⟨.IDENTIFIER, "main", 1⟩, ⟨.OPEN_PAREN, "(", 1⟩,
      ⟨.CLOSE_PAREN, ")", 1⟩, ⟨.OPEN_BRACE, "\x7b", 1⟩, ⟨.SEMICOLON, ";", 1⟩,
      ⟨.RETURN, "return", 1⟩, ⟨.NUMBER_LITERAL, "0", 1⟩, ⟨.SEMICOLON, ";", 1⟩,
      ⟨.CLOSE_BRACE, "\x7d", 1⟩, ⟨.END_OF_FILE, "", 1⟩]
    (⟨[some (.funcDef "int" "main"
        (some (.block [some (.ret (some (.numberLiteral "0")))])))]⟩,
      ["Parser Warning: Skipping unknown token in block: Token [Type: SEMICOLON, Value: ';', Line: 1]"])
    rfl
    (some (.funcDef "int" "main"
      (some (.block [some (.ret (some (.numberLiteral "0")))]))))
    (List.mem_cons_self _ _) _ rfl

/-- C4 amended: when the first token is not end-of-stream and does not start
    an `int IDENTIFIER` function header (with the lookahead token existing
    whenever the first token is `int`), `parse` emits the skip warning for
    exactly that one token, pushes a null entry for it onto the program's
    statements list, and continues as a parse of the remaining tokens. -/
theorem c4_skip_warn_continue (toks : List Token) (t : Token)
    (h0 : toks[0]? = some t) (hne : t.type ≠ .END_OF_FILE)
    (hnotfn : ¬(t.type = .INT ∧ toks[1]?.map Token.type = some .IDENTIFIER))
    (hlook : t.type = .INT → 1 < toks.length) :
    parse toks = (parseFrom toks 1).map
      (fun r => (⟨none :: r.1.statements⟩,
        ("Parser Warning: Skipping unknown top-level token: " ++ t.to_string) :: r.2)) := by
  have hdecl : parse_declaration toks 0
      = .ok none 1 ["Parser Warning: Skipping unknown top-level token: " ++ t.to_string] := by
    by_cases hint : t.type = .INT
    · have h1 : 1 < toks.length := hlook hint
      have hu : toks[1]? = some toks[1] := List.getElem?_eq_getElem h1
      have hui : toks[1].type ≠ .IDENTIFIER := by
        intro hh
        exact hnotfn ⟨hint, by rw [hu]; simp [hh]⟩
      have hb : (¬ t.type = .END_OF_FILE ∧ t.type = .INT) := ⟨hne, hint⟩
      simp only [parse_declaration, check_some h0 _, decide_eq_true hb, hu, if_neg hui,
        advanceTok_ok h0 hne]
    · have hb : ¬(¬ t.type = .END_OF_FILE ∧ t.type = .INT) := fun hcon => hint hcon.2
      simp only [parse_declaration, check_some h0 _, decide_eq_false hb,
        advanceTok_ok h0 hne]
  simp only [parse, parseFrom, Nat.sub_zero]
  simp only [parseLoop, h0, if_neg hne, hdecl]
  have harith : toks.length + 1 - 1 = toks.length := by omega
  rw [harith]
  rcases hy : parseLoop toks toks.length 1 with _ | ⟨l, ds⟩ <;> simp [hy]

/-- C4 amended, witness at the token sequence `;` `EOF`. -/
theorem c4_skip_warn_continue_witness :
    parse [⟨.SEMICOLON, ";", 1⟩, ⟨.END_OF_FILE, "", 1⟩]
      = (parseFrom [⟨.SEMICOLON, ";", 1⟩, ⟨.END_OF_FILE, "", 1⟩] 1).map
          (fun r => (⟨none :: r.1.statements⟩,
            ("Parser Warning: Skipping unknown top-level token: "
              ++ (⟨.SEMICOLON, ";", 1⟩ : Token).to_string) :: r.2)) :=
  c4_skip_warn_continue _ ⟨.SEMICOLON, ";", 1⟩ rfl (by decide) (by decide) (by decide)

end Bolt
